import Mathlib

/-!
Shallow embedding of `proxy_benchmark.py` (MBProxies).

Numbers: Python floats are modelled as exact rationals (ℚ); decimal
formatting of output fields is presentation only and not modelled.
The probing environment (network behaviour of each proxy) is a parameter
`env : String → String → ProbeOutcome`; the nondeterministic completion
order of `asyncio.as_completed` is a parameter `sel` selecting task
indices, so collected results are always drawn from the actual task list.
Python dicts preserve insertion order; the store is an association list
updated in place (new keys appended at the end), exactly as
`defaultdict` behaves.  Python `sorted` is a stable sort; it is modelled
by `List.insertionSort`, the canonical stable sort (stable sorts under
the same total preorder agree on all inputs).
-/

namespace MBProxies

/-- Constant `HISTORY_MAX_RUNS` (10): keep last N runs per proxy. -/
def HISTORY_MAX_RUNS : Nat := 10

/-- Constant `MIN_TESTS_FOR_FAIL` (3): threshold of trailing failures. -/
def MIN_TESTS_FOR_FAIL : Nat := 3

/-- Constant `TOP_N_COUNT` (150). -/
def TOP_N_COUNT : Nat := 150

/-- The byte budget `10 * 1024 * 1024` appearing in the read loop of `try_proxy`. -/
def BYTE_BUDGET : Nat := 10 * 1024 * 1024

/-- History entries are the pairs `(score, success)` stored per proxy
(`history[proxy].append((sc, success))`). -/
abbrev Entry := ℚ × Bool

/-- The per-run result tuple `(proxy, scheme, latency, speed, score, success)`
returned by `try_proxy`. -/
structure Result where
  proxy : String
  scheme : String
  lat : Option ℚ
  spd : Option ℚ
  sc : ℚ
  success : Bool
deriving DecidableEq, Repr

/-- One row of `history.csv` as read back by `load_history`: the Proxy
column, the parsed Score column, and the Success column (compared against
the digit one); the Timestamp column is ignored on load. -/
structure HRow where
  proxy : String
  score : ℚ
  success : String
deriving DecidableEq, Repr

/-- One row written by `save_history`: the proxy, the save-time clock, the score, and the success flag rendered as a digit. -/
structure SavedRow where
  proxy : String
  timestamp : Nat
  score : ℚ
  success : String
deriving DecidableEq, Repr

/-- Environment behaviour of one probe attempt: whether the request
succeeds with an acceptable status, the elapsed wall-clock time, and the
sizes of the chunks delivered by `resp.content.iter_chunked(65536)`. -/
structure ProbeOutcome where
  ok : Bool
  latency : ℚ
  chunks : List Nat
deriving Repr

/-- One report row `(proxy, scheme, lat, spd, sc, lt, rr, ra)` built in `main`. -/
structure Row where
  proxy : String
  scheme : String
  lat : Option ℚ
  spd : Option ℚ
  sc : ℚ
  lt : ℚ
  rr : ℚ
  ra : ℚ
deriving DecidableEq, Repr

/-- The in-memory history: `defaultdict(lambda: deque(maxlen=HISTORY_MAX_RUNS))`,
as an insertion-ordered association list. -/
abbrev Store := List (String × List Entry)

/-- Last `n` elements of a list (Python `l[-n:]`, and the retained part of a
bounded deque). -/
def lastN (n : Nat) (l : List α) : List α := l.drop (l.length - n)

/-- Append on a `deque` with `maxlen=HISTORY_MAX_RUNS`: when the deque is full the
oldest (leftmost) element is evicted. -/
def dequeAppend (d : List Entry) (e : Entry) : List Entry :=
  if d.length = HISTORY_MAX_RUNS then d.tail ++ [e] else d ++ [e]

/-- Dictionary lookup on the association-list store. -/
def lookupStore : Store → String → Option (List Entry)
  | [], _ => none
  | (q, d) :: rest, p => if q = p then some d else lookupStore rest p

/-- Append of an entry under a key of the `defaultdict`: update the existing key in
place, or add a new key at the end (dicts preserve insertion order). -/
def storeAppend : Store → String → Entry → Store
  | [], p, e => [(p, dequeAppend [] e)]
  | (q, d) :: rest, p, e =>
      if q = p then (q, dequeAppend d e) :: rest
      else (q, d) :: storeAppend rest p e

/-- The merge loop of `main`:
`for proxy, scheme, lat, spd, sc, success in all_results: history[proxy].append((sc, success))`.
Note the key is the proxy string alone; the scheme is not part of the key. -/
def merge (s : Store) (rs : List Result) : Store :=
  rs.foldl (fun s r => storeAppend s r.proxy (r.sc, r.success)) s

/-- Function `load_proxies`: read stripped non-empty lines; a missing file
(`FileNotFoundError`) yields the empty list. -/
def load_proxies (file : Option (List String)) : List String :=
  match file with
  | none => []
  | some lines => (lines.map (fun l => l.trim)).filter (fun l => l ≠ "")

/-- Function `load_history`: absent history file yields an empty store; otherwise each
CSV row is appended to the (bounded) deque of its proxy. -/
def load_history (file : Option (List HRow)) : Store :=
  match file with
  | none => []
  | some rows =>
      rows.foldl (fun s r => storeAppend s r.proxy (r.score, decide (r.success = "1"))) []

/-- The store flattened in iteration order (`history.items()`, entries left to
right), as traversed by `save_history`. -/
def flatStore (store : Store) : List (String × Entry) :=
  store.foldr (fun pe acc => (pe.2.map (fun e => (pe.1, e))) ++ acc) []

/-- Rows written by `save_history`: `int(time())` is evaluated once per row, so
row `i` carries `clock i`. -/
def saveRows (clock : Nat → Nat) : Nat → List (String × Entry) → List SavedRow
  | _, [] => []
  | i, (p, e) :: rest =>
      { proxy := p, timestamp := clock i, score := e.1,
        success := if e.2 then "1" else "0" } :: saveRows clock (i + 1) rest

/-- Function `save_history`: every entry of every proxy is written with the save-time
clock, not with the time of the probe that produced it. -/
def save_history (store : Store) (clock : Nat → Nat) : List SavedRow :=
  saveRows clock 0 (flatStore store)

/-- The byte-reading loop of `try_proxy`:
`total += len(chunk); if total >= 10*1024*1024: break`.
The chunk is added before the budget test. -/
def readTotal : List Nat → Nat → Nat
  | [], total => total
  | c :: cs, total =>
      if BYTE_BUDGET ≤ total + c then total + c else readTotal cs (total + c)

/-- Function `try_proxy`: on success, `speed = total/elapsed/1024/1024`,
`score = speed/(latency + 0.01)`; on any failure the result is
`(proxy, scheme, None, None, 0.0, False)`. -/
def try_proxy (proxy scheme : String) (o : ProbeOutcome) : Result :=
  if o.ok then
    let total : ℚ := (readTotal o.chunks 0 : Nat)
    let elapsed := o.latency
    let speed := total / elapsed / 1024 / 1024
    let latency := elapsed
    let score := speed / (latency + 1 / 100)
    { proxy := proxy, scheme := scheme, lat := some latency,
      spd := some speed, sc := score, success := true }
  else
    { proxy := proxy, scheme := scheme, lat := none, spd := none,
      sc := 0, success := false }

/-- Collect tasks in an arbitrary completion order: `sel` lists task indices in
arrival order.  Results are always drawn from the actual task list, so an
empty task list yields no results whatever `sel` is. -/
def applyPerm (sel : List Nat) (l : List α) : List α :=
  sel.filterMap (fun i => l[i]?)

/-- Function `run_tests`: one `try_proxy` task per proxy of the scheme, results
collected in `asyncio.as_completed` (completion) order. -/
def run_tests (proxies : List String) (scheme : String)
    (env : String → String → ProbeOutcome) (sel : List Nat) : List Result :=
  applyPerm sel (proxies.map (fun p => try_proxy p scheme (env p scheme)))

/-- The failure test of `main`:
`len(entries) >= MIN_TESTS_FOR_FAIL and all(not succ for _, succ in list(entries)[-MIN_TESTS_FOR_FAIL:])`. -/
def failCond (entries : List Entry) : Bool :=
  decide (MIN_TESTS_FOR_FAIL ≤ entries.length) &&
    (lastN MIN_TESTS_FOR_FAIL entries).all (fun e => !e.2)

/-- List `failed`: proxies of the merged store (in iteration order) whose recent
history is all failures. -/
def failedOf (store : Store) : List String :=
  (store.filter (fun pe => failCond pe.2)).map (fun pe => pe.1)

/-- List `responded`: proxies with at least one successful entry anywhere in
history. -/
def respondedOf (store : Store) : List String :=
  (store.filter (fun pe => pe.2.any (fun e => e.2))).map (fun pe => pe.1)

/-- One report row of the rows loop in `main`: `entries = list(history[proxy])`,
`lt = sum(score)/len(entries) if entries else sc`,
`rr = successes/len*100 if entries else (100 if success else 0)`,
`ra = mean of successful scores if any else 0`. -/
def computeRow (store : Store) (r : Result) : Row :=
  let entries := (lookupStore store r.proxy).getD []
  let lt := if entries.isEmpty then r.sc
            else (entries.map (fun e => e.1)).sum / (entries.length : ℚ)
  let rr := if entries.isEmpty then (if r.success then (100 : ℚ) else 0)
            else ((entries.filter (fun e => e.2)).length : ℚ) / (entries.length : ℚ) * 100
  let ss := (entries.filter (fun e => e.2)).map (fun e => e.1)
  let ra := if ss.isEmpty then (0 : ℚ) else ss.sum / (ss.length : ℚ)
  { proxy := r.proxy, scheme := r.scheme, lat := r.lat, spd := r.spd,
    sc := r.sc, lt := lt, rr := rr, ra := ra }

/-- The comparison of `sorted(rows, key=lambda r: r[5], reverse=True)`:
row `a` may precede row `b` when the long-term score of `a` is at least that of `b`. -/
def rowGE (a b : Row) : Prop := b.lt ≤ a.lt

instance : DecidableRel rowGE := fun a b => inferInstanceAs (Decidable (b.lt ≤ a.lt))

instance : IsTotal Row rowGE := ⟨fun a b => le_total b.lt a.lt⟩

instance : IsTrans Row rowGE := ⟨fun _ _ _ h1 h2 => le_trans h2 h1⟩

/-- Format of the rotation and top-N files: the scheme, a separator, the address. -/
def fmtProxy (r : Row) : String := r.scheme ++ "://" ++ r.proxy

/-- The output artifacts of one cycle of `main`. -/
structure RunOutputs where
  failedFile : List String
  respondedFile : List String
  csvRows : List Row
  topNFile : List String
  rotationFile : List String
deriving DecidableEq, Repr

/-- The report/classification stage of `main`, after the history merge. -/
def mkOutputs (history : Store) (all_results : List Result) : RunOutputs :=
  let rows := all_results.map (computeRow history)
  let sorted_rows := List.insertionSort rowGE rows
  { failedFile := failedOf history
    respondedFile := respondedOf history
    csvRows := sorted_rows
    topNFile := (sorted_rows.take TOP_N_COUNT).map fmtProxy
    rotationFile := sorted_rows.map fmtProxy }

/-- The merged history of one run: prior persisted state plus the current
results. -/
def runStore (hist : Option (List HRow)) (rs : List Result) : Store :=
  merge (load_history hist) rs

/-- Function `main`: load proxies per scheme, probe them (completion orders `sel1..3`),
merge into history, persist, then classify and report.  `save_history` is not
wrapped in any handler: a persistence failure propagates and aborts the run
before any output artifact is written. -/
def mainRun (http s5 s4 : Option (List String)) (hist : Option (List HRow))
    (env : String → String → ProbeOutcome) (sel1 sel2 sel3 : List Nat)
    (clock : Nat → Nat) (saveOk : Bool) : Except Unit (List SavedRow × RunOutputs) :=
  let all_results :=
    run_tests (load_proxies http) "http" env sel1 ++
    run_tests (load_proxies s5) "socks5" env sel2 ++
    run_tests (load_proxies s4) "socks4" env sel3
  let history := merge (load_history hist) all_results
  if saveOk then
    Except.ok (save_history history clock, mkOutputs history all_results)
  else
    Except.error ()

/-- Modelled from the spec (Selector contract, for refinement comparison with
the code): the rotation list built from report rows taken in the original
ProxySource input order (http, then socks5, then socks4 file order), stably
sorted by long-term score descending. -/
def rotationSpec (http s5 s4 : Option (List String)) (hist : Option (List HRow))
    (env : String → String → ProbeOutcome) : List String :=
  let results_in_order :=
    (load_proxies http).map (fun p => try_proxy p "http" (env p "http")) ++
    (load_proxies s5).map (fun p => try_proxy p "socks5" (env p "socks5")) ++
    (load_proxies s4).map (fun p => try_proxy p "socks4" (env p "socks4"))
  let history := merge (load_history hist) results_in_order
  (List.insertionSort rowGE (results_in_order.map (computeRow history))).map fmtProxy

/-- The full append sequence a given proxy address receives during one run:
its rows from the persisted file, then its results of the current run (one
per occurrence, scheme ignored). -/
def appendedFor (hist : Option (List HRow)) (rs : List Result) (p : String) : List Entry :=
  ((hist.getD []).filter (fun hr => hr.proxy = p)).map
      (fun hr => ((hr.score : ℚ), decide (hr.success = "1"))) ++
    (rs.filter (fun r => r.proxy = p)).map (fun r => (r.sc, r.success))

/-! ## Helper lemmas: bounded deques are suffixes of the append sequence -/

theorem lastN_nil (n : Nat) : lastN n ([] : List α) = [] := by
  simp [lastN]

theorem lastN_length_le (n : Nat) (l : List α) : (lastN n l).length ≤ n := by
  simp only [lastN, List.length_drop]
  omega

theorem lastN_suffix (n : Nat) (l : List α) : lastN n l <:+ l :=
  List.drop_suffix _ l

theorem dequeAppend_lastN (c : List Entry) (e : Entry) :
    dequeAppend (lastN HISTORY_MAX_RUNS c) e = lastN HISTORY_MAX_RUNS (c ++ [e]) := by
  have hmax : HISTORY_MAX_RUNS = 10 := rfl
  rcases Nat.lt_or_ge c.length 10 with h | h
  · have h0 : c.length - 10 = 0 := by omega
    have h1 : c.length + 1 - 10 = 0 := by omega
    have hne : ¬(c.length = 10) := by omega
    simp [dequeAppend, lastN, hmax, h0, h1, List.length_drop, List.length_append, hne]
  · have hlen : (lastN HISTORY_MAX_RUNS c).length = HISTORY_MAX_RUNS := by
      simp only [lastN, List.length_drop, hmax]
      omega
    rw [dequeAppend, if_pos hlen]
    simp only [lastN, hmax, List.tail_drop, List.length_append, List.length_singleton]
    rw [List.drop_append_of_le_length (by omega)]
    congr 2
    omega

theorem foldl_dequeAppend (es : List Entry) : ∀ c : List Entry,
    es.foldl dequeAppend (lastN HISTORY_MAX_RUNS c) = lastN HISTORY_MAX_RUNS (c ++ es) := by
  induction es with
  | nil => intro c; simp
  | cons e es ih =>
      intro c
      rw [List.foldl_cons, dequeAppend_lastN, ih (c ++ [e])]
      simp

theorem foldl_dequeAppend_nil (es : List Entry) :
    es.foldl dequeAppend [] = lastN HISTORY_MAX_RUNS es := by
  have h : lastN HISTORY_MAX_RUNS ([] : List Entry) = [] := rfl
  rw [← h, foldl_dequeAppend]
  simp

/-! ## Helper lemmas: lookups through store updates -/

theorem lookup_storeAppend (s : Store) (p : String) (e : Entry) (q : String) :
    lookupStore (storeAppend s p e) q =
      if p = q then some (dequeAppend ((lookupStore s q).getD []) e)
      else lookupStore s q := by
  induction s with
  | nil =>
      by_cases h : p = q <;> simp [storeAppend, lookupStore, h]
  | cons pe rest ih =>
      obtain ⟨r, d⟩ := pe
      by_cases hrp : r = p
      · subst hrp
        by_cases hq : r = q
        · subst hq
          simp [storeAppend, lookupStore]
        · simp [storeAppend, lookupStore, hq]
      · by_cases hq : r = q
        · subst hq
          have hpq : ¬(p = r) := fun h => hrp h.symm
          simp [storeAppend, lookupStore, hrp, hpq]
        · simp [storeAppend, lookupStore, hrp, hq, ih]

theorem lookup_foldl_storeAppend (pes : List (String × Entry)) :
    ∀ (s0 : Store) (p : String),
      lookupStore (pes.foldl (fun s pe => storeAppend s pe.1 pe.2) s0) p =
        (if (pes.filter (fun pe => pe.1 = p)) = [] then lookupStore s0 p
         else some (((pes.filter (fun pe => pe.1 = p)).map Prod.snd).foldl dequeAppend
                      ((lookupStore s0 p).getD []))) := by
  induction pes with
  | nil => intro s0 p; simp
  | cons pe rest ih =>
      intro s0 p
      rw [List.foldl_cons, ih (storeAppend s0 pe.1 pe.2) p]
      by_cases hp : pe.1 = p
      · have hfil : (pe :: rest).filter (fun pe => pe.1 = p) =
            pe :: rest.filter (fun pe => pe.1 = p) := by
          simp [List.filter, hp]
        rw [hfil, lookup_storeAppend, if_pos hp]
        by_cases hrest : rest.filter (fun pe => pe.1 = p) = []
        · simp [hrest]
        · simp [hrest]
      · have hfil : (pe :: rest).filter (fun pe => pe.1 = p) =
            rest.filter (fun pe => pe.1 = p) := by
          simp [List.filter, hp]
        rw [hfil, lookup_storeAppend, if_neg hp]

/-- The `(key, entry)` pairs appended by `load_history`. -/
def histPairs (hist : Option (List HRow)) : List (String × Entry) :=
  (hist.getD []).map (fun hr => (hr.proxy, ((hr.score : ℚ), decide (hr.success = "1"))))

/-- The `(key, entry)` pairs appended by the merge loop. -/
def resultPairs (rs : List Result) : List (String × Entry) :=
  rs.map (fun r => (r.proxy, (r.sc, r.success)))

theorem runStore_eq_foldl (hist : Option (List HRow)) (rs : List Result) :
    runStore hist rs =
      (histPairs hist ++ resultPairs rs).foldl (fun s pe => storeAppend s pe.1 pe.2) [] := by
  cases hist with
  | none =>
      simp [runStore, load_history, merge, histPairs, resultPairs, List.foldl_map]
  | some rows =>
      simp [runStore, load_history, merge, histPairs, resultPairs,
        List.foldl_append, List.foldl_map]

theorem filter_pairs (hist : Option (List HRow)) (rs : List Result) (p : String) :
    ((histPairs hist ++ resultPairs rs).filter (fun pe => pe.1 = p)).map Prod.snd =
      appendedFor hist rs p := by
  simp only [histPairs, resultPairs, appendedFor, List.filter_append, List.map_append,
    List.filter_map, List.map_map]
  rfl

/-- Master characterization: the merged store of a run maps each address to
the last `HISTORY_MAX_RUNS` of the entries appended for it (file rows first,
then the results of this run), and to nothing if no entry was ever appended. -/
theorem lookup_runStore (hist : Option (List HRow)) (rs : List Result) (p : String) :
    lookupStore (runStore hist rs) p =
      if appendedFor hist rs p = [] then none
      else some (lastN HISTORY_MAX_RUNS (appendedFor hist rs p)) := by
  rw [runStore_eq_foldl, lookup_foldl_storeAppend]
  have hm := filter_pairs hist rs p
  by_cases h : appendedFor hist rs p = []
  · have hfil : (histPairs hist ++ resultPairs rs).filter (fun pe => pe.1 = p) = [] := by
      apply List.map_eq_nil_iff.mp
      rw [hm, h]
    rw [if_pos hfil, if_pos h]
    rfl
  · have hfil : (histPairs hist ++ resultPairs rs).filter (fun pe => pe.1 = p) ≠ [] := by
      intro hc
      apply h
      rw [← hm, hc]
      rfl
    rw [if_neg hfil, if_neg h, hm]
    have hbase : ((lookupStore ([] : Store) p).getD []) = [] := rfl
    rw [hbase, foldl_dequeAppend_nil]

/-! ## Helper lemmas: store keys are distinct, membership via lookup -/

def storeKeys (s : Store) : List String := s.map Prod.fst

theorem keys_storeAppend (s : Store) (p : String) (e : Entry) :
    storeKeys (storeAppend s p e) =
      if p ∈ storeKeys s then storeKeys s else storeKeys s ++ [p] := by
  induction s with
  | nil => simp [storeAppend, storeKeys]
  | cons pe rest ih =>
      obtain ⟨r, d⟩ := pe
      by_cases hrp : r = p
      · subst hrp
        simp [storeAppend, storeKeys]
      · simp only [storeKeys] at ih
        by_cases hmem : p ∈ List.map Prod.fst rest
        · have hmem2 : p ∈ r :: List.map Prod.fst rest := List.mem_cons_of_mem r hmem
          simp only [storeAppend, if_neg hrp, storeKeys, List.map_cons]
          rw [ih, if_pos hmem, if_pos hmem2]
        · have hmem2 : ¬ p ∈ r :: List.map Prod.fst rest := by
            rw [List.mem_cons]
            rintro (h | h)
            · exact hrp h.symm
            · exact hmem h
          simp only [storeAppend, if_neg hrp, storeKeys, List.map_cons]
          rw [ih, if_neg hmem, if_neg hmem2]
          simp

theorem nodup_keys_storeAppend (s : Store) (p : String) (e : Entry)
    (h : (storeKeys s).Nodup) : (storeKeys (storeAppend s p e)).Nodup := by
  rw [keys_storeAppend]
  by_cases hm : p ∈ storeKeys s
  · rw [if_pos hm]; exact h
  · rw [if_neg hm]
    exact List.Nodup.append h (List.nodup_singleton p) (by simp [List.disjoint_singleton, hm])

theorem nodup_keys_foldl (pes : List (String × Entry)) :
    ∀ s0 : Store, (storeKeys s0).Nodup →
      (storeKeys (pes.foldl (fun s pe => storeAppend s pe.1 pe.2) s0)).Nodup := by
  induction pes with
  | nil => intro s0 h; exact h
  | cons pe rest ih => intro s0 h; exact ih _ (nodup_keys_storeAppend _ _ _ h)

theorem nodup_keys_runStore (hist : Option (List HRow)) (rs : List Result) :
    (storeKeys (runStore hist rs)).Nodup := by
  rw [runStore_eq_foldl]
  exact nodup_keys_foldl _ [] (by simp [storeKeys])

theorem mem_iff_lookup (s : Store) (hnd : (storeKeys s).Nodup) (p : String) (d : List Entry) :
    (p, d) ∈ s ↔ lookupStore s p = some d := by
  induction s with
  | nil => simp [lookupStore]
  | cons pe rest ih =>
      obtain ⟨r, dd⟩ := pe
      have hnd1 : ¬ r ∈ storeKeys rest := by
        simp only [storeKeys, List.map_cons, List.nodup_cons] at hnd
        exact hnd.1
      have hnd2 : (storeKeys rest).Nodup := by
        simp only [storeKeys, List.map_cons, List.nodup_cons] at hnd
        exact hnd.2
      rw [List.mem_cons]
      by_cases hr : r = p
      · subst hr
        have hl : lookupStore ((r, dd) :: rest) r = some dd := by
          simp [lookupStore]
        rw [hl]
        constructor
        · rintro (h | h)
          · rw [Prod.mk.injEq] at h
            rw [h.2]
          · exact absurd (List.mem_map_of_mem Prod.fst h) hnd1
        · intro h
          rw [Option.some.injEq] at h
          left
          rw [h]
      · have hl : lookupStore ((r, dd) :: rest) p = lookupStore rest p := by
          simp [lookupStore, hr]
        rw [hl, ← ih hnd2]
        constructor
        · rintro (h | h)
          · exfalso
            rw [Prod.mk.injEq] at h
            exact hr h.1.symm
          · exact h
        · intro h
          exact Or.inr h

theorem mem_failedOf_iff (s : Store) (hnd : (storeKeys s).Nodup) (p : String) :
    p ∈ failedOf s ↔ ∃ es, lookupStore s p = some es ∧ failCond es = true := by
  simp only [failedOf, List.mem_map, List.mem_filter]
  constructor
  · rintro ⟨⟨q, es⟩, ⟨hmem, hcond⟩, hq⟩
    simp only at hq
    subst hq
    exact ⟨es, (mem_iff_lookup s hnd _ _).mp hmem, hcond⟩
  · rintro ⟨es, hl, hcond⟩
    exact ⟨(p, es), ⟨(mem_iff_lookup s hnd p es).mpr hl, hcond⟩, rfl⟩

theorem mem_respondedOf_iff (s : Store) (hnd : (storeKeys s).Nodup) (p : String) :
    p ∈ respondedOf s ↔
      ∃ es, lookupStore s p = some es ∧ es.any (fun e => e.2) = true := by
  simp only [respondedOf, List.mem_map, List.mem_filter]
  constructor
  · rintro ⟨⟨q, es⟩, ⟨hmem, hcond⟩, hq⟩
    simp only at hq
    subst hq
    exact ⟨es, (mem_iff_lookup s hnd _ _).mp hmem, hcond⟩
  · rintro ⟨es, hl, hcond⟩
    exact ⟨(p, es), ⟨(mem_iff_lookup s hnd p es).mpr hl, hcond⟩, rfl⟩

/-! ## Helper lemmas: stability of the report sort -/

theorem filter_orderedInsert (k : ℚ) (a : Row) (l : List Row) :
    (List.orderedInsert rowGE a l).filter (fun x => decide (x.lt = k)) =
      if a.lt = k then a :: l.filter (fun x => decide (x.lt = k))
      else l.filter (fun x => decide (x.lt = k)) := by
  induction l with
  | nil =>
      by_cases h : a.lt = k <;> simp [List.orderedInsert, h]
  | cons b bs ih =>
      by_cases hr : rowGE a b
      · simp only [List.orderedInsert, if_pos hr]
        by_cases ha : a.lt = k <;> simp [List.filter_cons, ha]
      · have hr2 : ¬ (b.lt ≤ a.lt) := hr
        have hab : a.lt < b.lt := lt_of_not_le hr2
        simp only [List.orderedInsert, if_neg hr, List.filter_cons]
        by_cases hb : b.lt = k
        · have ha : ¬ a.lt = k := by
            intro h
            rw [h, hb] at hab
            exact lt_irrefl k hab
          simp [hb, ha, ih]
        · by_cases ha : a.lt = k <;> simp [hb, ha, ih]

theorem filter_insertionSort (k : ℚ) (l : List Row) :
    (List.insertionSort rowGE l).filter (fun x => decide (x.lt = k)) =
      l.filter (fun x => decide (x.lt = k)) := by
  induction l with
  | nil => rfl
  | cons a l ih =>
      rw [List.insertionSort, filter_orderedInsert]
      by_cases h : a.lt = k <;> simp [List.filter_cons, h, ih]

/-! ## Helper lemmas: the byte-reading loop and the save loop -/

theorem readTotal_le (chunks : List Nat) : ∀ total : Nat, total < BYTE_BUDGET →
    (∀ c ∈ chunks, c ≤ 65536) → readTotal chunks total ≤ BYTE_BUDGET + 65535 := by
  have hB : BYTE_BUDGET = 10485760 := rfl
  induction chunks with
  | nil =>
      intro total h _
      rw [readTotal]
      omega
  | cons c cs ih =>
      intro total h hc
      rw [readTotal]
      by_cases hb : BYTE_BUDGET ≤ total + c
      · rw [if_pos hb]
        have := hc c (List.mem_cons_self c cs)
        omega
      · rw [if_neg hb]
        exact ih (total + c) (by omega) (fun x hx => hc x (List.mem_cons_of_mem c hx))

theorem saveRows_const_clock (t : Nat) (l : List (String × Entry)) :
    ∀ i, (saveRows (fun _ => t) i l).all (fun row => row.timestamp == t) = true := by
  induction l with
  | nil => intro i; rfl
  | cons pe rest ih =>
      intro i
      obtain ⟨p, e⟩ := pe
      simp [saveRows, ih (i + 1)]

theorem applyPerm_nil (sel : List Nat) : applyPerm sel ([] : List α) = [] := by
  induction sel with
  | nil => rfl
  | cons i rest ih =>
      simp only [applyPerm, List.filterMap_cons] at ih ⊢
      simp [ih]

theorem run_tests_nil (scheme : String) (env : String → String → ProbeOutcome)
    (sel : List Nat) : run_tests [] scheme env sel = [] := by
  simp [run_tests, applyPerm_nil]

/-! ## Concrete fixtures used by counterexamples and witnesses -/

/-- Environment in which every probe fails (timeout / refusal). -/
def envFail : String → String → ProbeOutcome :=
  fun _ _ => { ok := false, latency := 0, chunks := [] }

/-- A constant wall clock during one save. -/
def clock0 : Nat → Nat := fun _ => 1700000000

/-- A failed probe result for proxy `p:1`, as `try_proxy` returns it. -/
def r0 : Result :=
  { proxy := "p:1", scheme := "http", lat := none, spd := none, sc := 0, success := false }

/-! ## Claims -/

/-- Claim C2 (confirmed): for every probed proxy, the Long-Term Score of its
report row is the arithmetic mean of the `score` field over its retained
history entries after the current run is merged (the merged history of a
probed proxy is never empty, since its own result was just appended); and in
the empty-history branch of the code the row falls back to the score of the
current run. -/
theorem C2_long_term_score (hist : Option (List HRow)) (rs : List Result)
    (r : Result) (hr : r ∈ rs) :
    (∃ entries, lookupStore (runStore hist rs) r.proxy = some entries ∧
        entries ≠ [] ∧
        (computeRow (runStore hist rs) r).lt =
          (entries.map (fun e => e.1)).sum / (entries.length : ℚ)) ∧
      (∀ (store : Store) (r2 : Result), lookupStore store r2.proxy = none →
        (computeRow store r2).lt = r2.sc) := by
  constructor
  · have hmem : r ∈ rs.filter (fun x => x.proxy = r.proxy) :=
      List.mem_filter.mpr ⟨hr, by simp⟩
    have hne : appendedFor hist rs r.proxy ≠ [] := by
      intro h0
      rw [appendedFor, List.append_eq_nil] at h0
      have h2 := h0.2
      rw [List.map_eq_nil_iff] at h2
      rw [h2] at hmem
      exact List.not_mem_nil r hmem
    have hlook := lookup_runStore hist rs r.proxy
    rw [if_neg hne] at hlook
    have hlenpos : 0 < (lastN HISTORY_MAX_RUNS (appendedFor hist rs r.proxy)).length := by
      simp only [lastN, List.length_drop]
      have := List.length_pos.mpr hne
      have hmaxpos : 0 < HISTORY_MAX_RUNS := by decide
      omega
    have hne2 : lastN HISTORY_MAX_RUNS (appendedFor hist rs r.proxy) ≠ [] := by
      intro hc
      rw [hc] at hlenpos
      exact Nat.lt_irrefl 0 hlenpos
    have hempty : (lastN HISTORY_MAX_RUNS (appendedFor hist rs r.proxy)).isEmpty = false := by
      simp [List.isEmpty_eq_false, hne2]
    refine ⟨lastN HISTORY_MAX_RUNS (appendedFor hist rs r.proxy), hlook, hne2, ?_⟩
    simp [computeRow, hlook, hempty]
  · intro store r2 h
    simp [computeRow, h]

/-- Witness for C2 at a concrete input: one failed probe of `p:1` with no
prior history; its long-term score is the mean of its single entry. -/
theorem C2_witness :
    r0 ∈ [r0] ∧
      ((∃ entries, lookupStore (runStore none [r0]) r0.proxy = some entries ∧
          entries ≠ [] ∧
          (computeRow (runStore none [r0]) r0).lt =
            (entries.map (fun e => e.1)).sum / (entries.length : ℚ)) ∧
        (∀ (store : Store) (r2 : Result), lookupStore store r2.proxy = none →
          (computeRow store r2).lt = r2.sc)) :=
  ⟨List.mem_singleton.mpr rfl, C2_long_term_score none [r0] r0 (List.mem_singleton.mpr rfl)⟩

/-- Claim C3 (confirmed): a proxy is listed in the failed output exactly when
its merged history has at least `MIN_TESTS_FOR_FAIL` entries and the most
recent `MIN_TESTS_FOR_FAIL` of them are all failures. -/
theorem C3_failed_iff (hist : Option (List HRow)) (rs : List Result) (p : String) :
    p ∈ failedOf (runStore hist rs) ↔
      ∃ entries, lookupStore (runStore hist rs) p = some entries ∧
        MIN_TESTS_FOR_FAIL ≤ entries.length ∧
        ∀ e ∈ lastN MIN_TESTS_FOR_FAIL entries, e.2 = false := by
  rw [mem_failedOf_iff _ (nodup_keys_runStore hist rs)]
  constructor
  · rintro ⟨es, hl, hcond⟩
    rw [failCond, Bool.and_eq_true, decide_eq_true_eq, List.all_eq_true] at hcond
    refine ⟨es, hl, hcond.1, fun e he => ?_⟩
    have := hcond.2 e he
    simpa using this
  · rintro ⟨es, hl, h1, h2⟩
    refine ⟨es, hl, ?_⟩
    rw [failCond, Bool.and_eq_true, decide_eq_true_eq, List.all_eq_true]
    exact ⟨h1, fun e he => by simp [h2 e he]⟩

/-- Claim C4 (confirmed): the merged history of any proxy after load and merge
has length at most `HISTORY_MAX_RUNS` and is exactly the final segment of the
full append sequence for that proxy — eviction removes the oldest entries
first. -/
theorem C4_history_bounded (hist : Option (List HRow)) (rs : List Result)
    (p : String) (entries : List Entry)
    (h : lookupStore (runStore hist rs) p = some entries) :
    entries.length ≤ HISTORY_MAX_RUNS ∧
      entries = lastN HISTORY_MAX_RUNS (appendedFor hist rs p) ∧
      entries <:+ appendedFor hist rs p := by
  rw [lookup_runStore] at h
  by_cases hne : appendedFor hist rs p = []
  · rw [if_pos hne] at h
    exact absurd h (by simp)
  · rw [if_neg hne, Option.some.injEq] at h
    subst h
    exact ⟨lastN_length_le _ _, rfl, lastN_suffix _ _⟩

/-- Witness for C4 at a concrete input: a single probe of `p:1` yields a
one-entry history, bounded by the capacity and a suffix of the appends. -/
theorem C4_witness :
    lookupStore (runStore none [r0]) "p:1" = some [((0 : ℚ), false)] ∧
      (([((0 : ℚ), false)] : List Entry).length ≤ HISTORY_MAX_RUNS ∧
        [((0 : ℚ), false)] = lastN HISTORY_MAX_RUNS (appendedFor none [r0] "p:1") ∧
        ([((0 : ℚ), false)] : List Entry) <:+ appendedFor none [r0] "p:1") :=
  ⟨by decide, C4_history_bounded none [r0] "p:1" [((0 : ℚ), false)] (by decide)⟩

/-- Claim C8 (confirmed): a missing history file loads as an empty history,
not an error; a missing proxy input file contributes zero candidates for its
scheme (so no probe task and no result for it), and the run still completes,
producing its outputs. -/
theorem C8_missing_inputs (s5 s4 : Option (List String)) (hist : Option (List HRow))
    (env : String → String → ProbeOutcome) (sel1 sel2 sel3 : List Nat)
    (clock : Nat → Nat) :
    load_proxies none = [] ∧
      load_history none = [] ∧
      run_tests (load_proxies none) "http" env sel1 = [] ∧
      (mainRun none s5 s4 hist env sel1 sel2 sel3 clock true).isOk = true := by
  refine ⟨rfl, rfl, run_tests_nil "http" env sel1, ?_⟩
  rfl

/-- Claim C10 (confirmed): the failed/responded classification ranges over the
whole merged store, so a proxy present only in persisted history — absent from
the results of this run — keeps its loaded history untouched and appears in the
failed (or responded) output file whenever that history meets the condition. -/
theorem C10_unprobed_classified (hist : Option (List HRow)) (rs : List Result)
    (p : String) (es : List Entry)
    (hp : ∀ r ∈ rs, r.proxy ≠ p)
    (hl : lookupStore (load_history hist) p = some es) :
    lookupStore (runStore hist rs) p = some es ∧
      (failCond es = true → p ∈ (mkOutputs (runStore hist rs) rs).failedFile) ∧
      (es.any (fun e => e.2) = true → p ∈ (mkOutputs (runStore hist rs) rs).respondedFile) := by
  have hmerge : lookupStore (runStore hist rs) p = some es := by
    have heq : runStore hist rs =
        (resultPairs rs).foldl (fun s pe => storeAppend s pe.1 pe.2) (load_history hist) := by
      simp [runStore, merge, resultPairs, List.foldl_map]
    rw [heq, lookup_foldl_storeAppend]
    have hfil : (resultPairs rs).filter (fun pe => pe.1 = p) = [] := by
      rw [List.filter_eq_nil_iff]
      rintro ⟨q, e⟩ hmem
      rw [resultPairs, List.mem_map] at hmem
      obtain ⟨r, hrmem, hreq⟩ := hmem
      have hq : q = r.proxy := by
        rw [Prod.mk.injEq] at hreq
        exact hreq.1.symm
      simp only [hq, decide_eq_true_eq]
      exact hp r hrmem
    rw [if_pos hfil]
    exact hl
  refine ⟨hmerge, ?_, ?_⟩
  · intro hcond
    have hm : p ∈ failedOf (runStore hist rs) :=
      (mem_failedOf_iff _ (nodup_keys_runStore hist rs) p).mpr ⟨es, hmerge, hcond⟩
    simpa [mkOutputs] using hm
  · intro hcond
    have hm : p ∈ respondedOf (runStore hist rs) :=
      (mem_respondedOf_iff _ (nodup_keys_runStore hist rs) p).mpr ⟨es, hmerge, hcond⟩
    simpa [mkOutputs] using hm

/-- Witness for C10 at a concrete input: `old:1` has three persisted failures
and is not probed this run (no results at all); it still lands in the failed
output file. -/
theorem C10_witness :
    (∀ r ∈ ([] : List Result), r.proxy ≠ "old:1") ∧
      lookupStore
          (load_history (some [{ proxy := "old:1", score := 0, success := "0" },
            { proxy := "old:1", score := 0, success := "0" },
            { proxy := "old:1", score := 0, success := "0" }])) "old:1" =
        some [((0 : ℚ), false), ((0 : ℚ), false), ((0 : ℚ), false)] ∧
      (lookupStore
          (runStore (some [{ proxy := "old:1", score := 0, success := "0" },
            { proxy := "old:1", score := 0, success := "0" },
            { proxy := "old:1", score := 0, success := "0" }]) []) "old:1" =
          some [((0 : ℚ), false), ((0 : ℚ), false), ((0 : ℚ), false)] ∧
        (failCond [((0 : ℚ), false), ((0 : ℚ), false), ((0 : ℚ), false)] = true →
          "old:1" ∈
            (mkOutputs
                (runStore (some [{ proxy := "old:1", score := 0, success := "0" },
                  { proxy := "old:1", score := 0, success := "0" },
                  { proxy := "old:1", score := 0, success := "0" }]) []) []).failedFile) ∧
        ([((0 : ℚ), false), ((0 : ℚ), false), ((0 : ℚ), false)].any (fun e => e.2) = true →
          "old:1" ∈
            (mkOutputs
                (runStore (some [{ proxy := "old:1", score := 0, success := "0" },
                  { proxy := "old:1", score := 0, success := "0" },
                  { proxy := "old:1", score := 0, success := "0" }]) []) []).respondedFile)) :=
  ⟨fun r hr => absurd hr (List.not_mem_nil r),
    by decide,
    C10_unprobed_classified
      (some [{ proxy := "old:1", score := 0, success := "0" },
        { proxy := "old:1", score := 0, success := "0" },
        { proxy := "old:1", score := 0, success := "0" }]) [] "old:1"
      [((0 : ℚ), false), ((0 : ℚ), false), ((0 : ℚ), false)]
      (fun r hr => absurd hr (List.not_mem_nil r)) (by decide)⟩

/-- Claim C1 counterexample: with input order `a:1, b:2` (http) and both
probes failing (equal long-term scores), a legal completion order that
reverses the two tasks makes the rotation list come out `b:2, a:1` — ties are
broken by collection order, not by the original ProxySource order demanded by
the claim (`rotationSpec`). -/
theorem C1_counterexample :
    Except.map (fun out => out.2.rotationFile)
        (mainRun (some ["a:1", "b:2"]) none none none envFail [1, 0] [] [] clock0 true) =
      Except.ok ["http://b:2", "http://a:1"] ∧
      rotationSpec (some ["a:1", "b:2"]) none none none envFail =
        ["http://a:1", "http://b:2"] ∧
      List.Perm [1, 0] (List.range 2) ∧
      (["http://b:2", "http://a:1"] : List String) ≠ ["http://a:1", "http://b:2"] := by
  refine ⟨?_, ?_, ?_, ?_⟩
  · with_unfolding_all rfl
  · with_unfolding_all rfl
  · decide
  · decide

/-- Claim C1 amended (proved): the rotation list is exactly the report rows
stably sorted by long-term score descending — a permutation of the rows,
pairwise non-increasing in long-term score, with ties preserving the order in
which results were collected (the completion order), which need not equal the
original ProxySource input order. -/
theorem C1_amended (hist : Option (List HRow)) (rs : List Result) :
    (mkOutputs (runStore hist rs) rs).rotationFile =
        (List.insertionSort rowGE (rs.map (computeRow (runStore hist rs)))).map fmtProxy ∧
      List.Perm (List.insertionSort rowGE (rs.map (computeRow (runStore hist rs))))
        (rs.map (computeRow (runStore hist rs))) ∧
      List.Sorted rowGE (List.insertionSort rowGE (rs.map (computeRow (runStore hist rs)))) ∧
      ∀ k : ℚ,
        (List.insertionSort rowGE (rs.map (computeRow (runStore hist rs)))).filter
            (fun x => decide (x.lt = k)) =
          (rs.map (computeRow (runStore hist rs))).filter (fun x => decide (x.lt = k)) :=
  ⟨rfl, List.perm_insertionSort rowGE _, List.sorted_insertionSort rowGE _,
    fun k => filter_insertionSort k _⟩

/-- A failed probe of address `1.2.3.4:80` under the http scheme. -/
def rHttpDup : Result := try_proxy "1.2.3.4:80" "http" (envFail "1.2.3.4:80" "http")

/-- A failed probe of the same address under the socks5 scheme. -/
def rSocksDup : Result := try_proxy "1.2.3.4:80" "socks5" (envFail "1.2.3.4:80" "socks5")

/-- Claim C5 counterexample: two results share an address but differ in
scheme, yet the merged store holds a single HistoryEntry for the bare address
string, which receives both appends in one run — identity is not
`(address, scheme)` and more than one ProbeResult lands in that history. -/
theorem C5_counterexample :
    rHttpDup.scheme ≠ rSocksDup.scheme ∧
      rHttpDup.proxy = rSocksDup.proxy ∧
      runStore none [rHttpDup, rSocksDup] =
        [("1.2.3.4:80", [((0 : ℚ), false), ((0 : ℚ), false)])] ∧
      (runStore none [rHttpDup, rSocksDup]).length = 1 := by
  refine ⟨?_, ?_, ?_, ?_⟩ <;> decide

/-- Claim C5 amended (proved): proxy identity in the history store is the
address string alone — the store maps an address to the last
`HISTORY_MAX_RUNS` entries of its append sequence, which takes one entry per
occurrence of that address in the results of the run regardless of scheme, after
its rows from the persisted file. -/
theorem C5_amended (hist : Option (List HRow)) (rs : List Result) (p : String) :
    lookupStore (runStore hist rs) p =
      if appendedFor hist rs p = [] then none
      else some (lastN HISTORY_MAX_RUNS (appendedFor hist rs p)) :=
  lookup_runStore hist rs p

/-- Claim C6 counterexample: address `1.1.1.1:80` appears in both the http
and the socks5 input lists, so this run appends two ProbeResults for it; the
loaded history was empty, and `save_history` stamps both records with the
same save-time clock — two same-run records with identical timestamps. -/
theorem C6_counterexample :
    Except.map (fun out => out.1)
        (mainRun (some ["1.1.1.1:80"]) (some ["1.1.1.1:80"]) none none envFail
          [0] [0] [] clock0 true) =
      Except.ok
        [{ proxy := "1.1.1.1:80", timestamp := 1700000000, score := 0, success := "0" },
          { proxy := "1.1.1.1:80", timestamp := 1700000000, score := 0, success := "0" }] ∧
      load_history none = [] := by
  refine ⟨?_, ?_⟩
  · with_unfolding_all rfl
  · rfl

/-- Claim C6 amended (proved): `save_history` writes every persisted record
with the save-time clock, not the original probe time; when the clock does
not tick during the save, every record of the store — including several
records of one proxy appended by the same run — carries the identical
timestamp. -/
theorem C6_amended (store : Store) (t : Nat) :
    (save_history store (fun _ => t)).all (fun row => row.timestamp == t) = true :=
  saveRows_const_clock t (flatStore store) 0

/-- Claim C7 counterexample: when persisting the history fails, the run does
not continue — `main` has no handler around `save_history`, so the exception
aborts the cycle before any output artifact is produced. -/
theorem C7_counterexample :
    mainRun (some ["1.1.1.1:80"]) none none none envFail [0] [] [] clock0 false =
      Except.error () := rfl

/-- Claim C7 amended (proved): a persistence failure propagates as an
unhandled exception: whatever the inputs, the run yields an error and no
output artifacts for that cycle (the in-memory merged store is a pure value
and is simply discarded, not corrupted). -/
theorem C7_amended (http s5 s4 : Option (List String)) (hist : Option (List HRow))
    (env : String → String → ProbeOutcome) (sel1 sel2 sel3 : List Nat)
    (clock : Nat → Nat) :
    mainRun http s5 s4 hist env sel1 sel2 sel3 clock false = Except.error () := rfl

/-- Chunk sequence delivered by `iter_chunked(65536)`: 159 full chunks, one
short chunk, then one more full chunk. -/
def chunks0 : List Nat := List.replicate 159 65536 ++ [65535, 65536]

set_option maxRecDepth 20000 in
/-- Claim C9 counterexample: with realistic chunking (every chunk at most
65536 bytes) the read loop adds a chunk before testing the budget, so the
byte count reaches 10551295 > `BYTE_BUDGET`, and the reported speed is
computed from the uncapped count, not from the budget-capped one. -/
theorem C9_counterexample :
    chunks0.all (fun c => c ≤ 65536) = true ∧
      readTotal chunks0 0 = 10551295 ∧
      BYTE_BUDGET < readTotal chunks0 0 ∧
      (try_proxy "p:1" "http" { ok := true, latency := 1, chunks := chunks0 }).spd =
        some ((10551295 : ℚ) / 1 / 1024 / 1024) ∧
      ((10551295 : ℚ) / 1 / 1024 / 1024) ≠ ((BYTE_BUDGET : ℚ) / 1 / 1024 / 1024) := by
  refine ⟨?_, ?_, ?_, ?_, ?_⟩
  · decide
  · decide
  · decide
  · with_unfolding_all rfl
  · with_unfolding_all decide

/-- Claim C9 amended (proved): for a successful probe the reported speed is
the bytes actually received divided by the elapsed time, where reading stops
once the running total first reaches the budget; with chunks of at most 65536
bytes the total can exceed `BYTE_BUDGET`, but never by more than 65535. -/
theorem C9_amended (proxy scheme : String) (o : ProbeOutcome)
    (hok : o.ok = true) (hc : ∀ c ∈ o.chunks, c ≤ 65536) :
    (try_proxy proxy scheme o).spd =
        some (((readTotal o.chunks 0 : Nat) : ℚ) / o.latency / 1024 / 1024) ∧
      readTotal o.chunks 0 ≤ BYTE_BUDGET + 65535 := by
  constructor
  · simp [try_proxy, hok]
  · exact readTotal_le o.chunks 0 (by decide) hc

/-- Witness for the amended C9 at a concrete input: a successful probe that
received a single 100-byte chunk. -/
theorem C9_witness :
    ({ ok := true, latency := 1, chunks := [100] } : ProbeOutcome).ok = true ∧
      (∀ c ∈ ({ ok := true, latency := 1, chunks := [100] } : ProbeOutcome).chunks,
        c ≤ 65536) ∧
      ((try_proxy "p:1" "http" { ok := true, latency := 1, chunks := [100] }).spd =
          some (((readTotal ({ ok := true, latency := 1, chunks := [100] } :
            ProbeOutcome).chunks 0 : Nat) : ℚ) /
            ({ ok := true, latency := 1, chunks := [100] } : ProbeOutcome).latency /
            1024 / 1024) ∧
        readTotal ({ ok := true, latency := 1, chunks := [100] } :
          ProbeOutcome).chunks 0 ≤ BYTE_BUDGET + 65535) :=
  ⟨rfl, by decide, C9_amended "p:1" "http" { ok := true, latency := 1, chunks := [100] }
    rfl (by decide)⟩

end MBProxies
